import Mathlib

/-!
Shallow embedding of the core of the obsidian-underscore-underline plugin.

Lines of the text buffer are modelled as `List Char`; a JavaScript string
index access `line[i]` (which yields `undefined` out of bounds, compared
against `"_"` as "not an underscore") is modelled by `chAt : List Char →
Int → Option Char`.  All definitions are translated from
`src/toggle-command.ts` and `src/editor-decoration.ts`.
-/

/-- JavaScript string indexing `line[i]`: `none` when the index is negative
or past the end of the line (JS `undefined`). -/
def chAt (l : List Char) (i : Int) : Option Char :=
  if 0 ≤ i then l.get? i.toNat else none

/-- Test `line[i] === "_"` from the source: an out-of-bounds access compares
unequal to `"_"`, hence `false`. -/
def isUS (l : List Char) (i : Int) : Bool :=
  decide (chAt l i = some '_')

/-- The JavaScript `\s` (whitespace) character class used by `STOP_CHARS`. -/
def isJsWhitespace (c : Char) : Bool :=
  c = ' ' || c = '\t' || c = '\n' || c = '\r' ||
  c.toNat = 0x0b || c.toNat = 0x0c ||
  c.toNat = 0xa0 || c.toNat = 0x1680 ||
  (0x2000 <= c.toNat && c.toNat <= 0x200a) ||
  c.toNat = 0x2028 || c.toNat = 0x2029 || c.toNat = 0x202f ||
  c.toNat = 0x205f || c.toNat = 0x3000 || c.toNat = 0xfeff

/-- The `STOP_CHARS` regex class of `src/toggle-command.ts`:
whitespace, underscore, asterisk, tilde, backtick (code 96), square
brackets, parentheses, pipe, hash. -/
def isStopChar (c : Char) : Bool :=
  isJsWhitespace c || c = '_' || c = '*' || c = '~' || c = Char.ofNat 96 ||
  c = '[' || c = ']' || c = '(' || c = ')' || c = '|' || c = '#'

/-- Test `STOP_CHARS.test(line[i])`: out of bounds, JS coerces `undefined`
to the string "undefined", which contains no stop character, so the test is
`false`. -/
def isStopAt (l : List Char) (i : Int) : Bool :=
  match chAt l i with
  | some c => isStopChar c
  | none => false

/-- The left expansion loop of `detectWordRange`:
`while (left > 0 && !STOP_CHARS.test(line[left - 1])) left--`. -/
def expandLeft (line : List Char) : Nat → Nat
  | 0 => 0
  | l + 1 => if isStopAt line l then l + 1 else expandLeft line l

/-- Fuel-driven form of the right expansion loop of `detectWordRange`:
`while (right < line.length && !STOP_CHARS.test(line[right])) right++`. -/
def expandRightF (line : List Char) : Nat → Nat → Nat
  | 0, r => r
  | f + 1, r =>
    if r < line.length ∧ isStopAt line r = false then expandRightF line f (r + 1) else r

/-- The right expansion loop of `detectWordRange`; `line.length - r` units
of fuel suffice because the position strictly increases towards the end of
the line. -/
def expandRight (line : List Char) (r : Nat) : Nat :=
  expandRightF line (line.length - r) r

/-- Embedding of `detectWordRange(line, ch)` from `src/toggle-command.ts`. -/
def detectWordRange (line : List Char) (ch : Nat) : Nat × Nat :=
  if ch < line.length ∧ isStopAt line ch then (ch, ch)
  else (expandLeft line ch, expandRight line ch)

/-- The `UnderlineState` record returned by `getUnderlineState`. -/
structure UnderlineState where
  isUnderlined : Bool
  markFrom : Nat
  markTo : Nat
  contentFrom : Nat
  contentTo : Nat
deriving DecidableEq

/-- Case 1 condition of `getUnderlineState` (selection includes the marks):
`selTo - selFrom >= 2 && line[selFrom] === "_" && line[selTo - 1] === "_"
&& line[selFrom + 1] !== "_"`. -/
def marksIncludedCond (line : List Char) (selFrom selTo : Nat) : Bool :=
  decide (selFrom + 2 ≤ selTo) && isUS line selFrom &&
  isUS line ((selTo : Int) - 1) && !(isUS line ((selFrom : Int) + 1))

/-- Case 2 condition of `getUnderlineState` (selection excludes the marks):
`selFrom > 0 && selTo < line.length && line[selFrom - 1] === "_" &&
line[selTo] === "_" && line[selFrom - 2] !== "_" && line[selTo + 1] !== "_"`. -/
def marksExcludedCond (line : List Char) (selFrom selTo : Nat) : Bool :=
  decide (0 < selFrom) && decide (selTo < line.length) &&
  isUS line ((selFrom : Int) - 1) && isUS line selTo &&
  !(isUS line ((selFrom : Int) - 2)) && !(isUS line ((selTo : Int) + 1))

/-- Embedding of `getUnderlineState(line, selFrom, selTo)` from
`src/toggle-command.ts`: case 1 (marks included) is checked first, then
case 2 (marks excluded), otherwise the not-underlined default. -/
def getUnderlineState (line : List Char) (selFrom selTo : Nat) : UnderlineState :=
  if marksIncludedCond line selFrom selTo then
    ⟨true, selFrom, selTo, selFrom + 1, selTo - 1⟩
  else if marksExcludedCond line selFrom selTo then
    ⟨true, selFrom - 1, selTo + 1, selFrom, selTo⟩
  else
    ⟨false, selFrom, selTo, selFrom, selTo⟩

/-- JavaScript `line.slice(f, t)` for in-range clamped indices. -/
def sliceL (l : List Char) (f t : Nat) : List Char :=
  (l.drop f).take (t - f)

/-- The effect of `editor.replaceRange(s, {ch: f}, {ch: t})` on a single
line: the half-open range `[f, t)` is replaced by `s`. -/
def replaceRange (l : List Char) (s : List Char) (f t : Nat) : List Char :=
  l.take f ++ s ++ l.drop t

/-- Result of a single-line toggle: the new line text together with the
selection the command explicitly set (`none` when the source returns
without touching the selection). -/
structure ToggleResult where
  line : List Char
  sel : Option (Nat × Nat)
deriving DecidableEq

/-- Embedding of `applySingleLineToggle(editor, lineNum, selFrom, selTo)`
from `src/toggle-command.ts`, restricted to the touched line. -/
def applySingleLineToggle (line : List Char) (selFrom selTo : Nat) : ToggleResult :=
  if selFrom = selTo then ⟨line, none⟩
  else
    let state := getUnderlineState line selFrom selTo
    let content := sliceL line state.contentFrom state.contentTo
    if state.isUnderlined then
      ⟨replaceRange line content state.markFrom state.markTo,
       some (state.markFrom, state.markFrom + content.length)⟩
    else
      ⟨replaceRange line ('_' :: content ++ ['_']) selFrom selTo,
       some (selFrom + content.length + 2, selFrom + content.length + 2)⟩

/-- An editor position: line index and column (`ch`). -/
structure Pos where
  line : Nat
  ch : Nat
deriving DecidableEq

/-- The host buffer read `editor.getLine(i)`, over a buffer modelled as a
list of lines. -/
def getLineD (b : List (List Char)) (i : Nat) : List Char :=
  b.getD i []

/-- Embedding of `getLineSlice(line, lineNum, selFrom, selTo)` from
`src/toggle-command.ts`: the selected portion of one line of a (possibly
multi-line) selection. -/
def getLineSlice (line : List Char) (lineNum : Nat) (selFrom selTo : Pos) : Nat × Nat :=
  if lineNum = selFrom.line ∧ lineNum = selTo.line then (selFrom.ch, min selTo.ch line.length)
  else if lineNum = selFrom.line then (selFrom.ch, line.length)
  else if lineNum = selTo.line then (0, min selTo.ch line.length)
  else (0, line.length)

/-- The line indices `selFrom.line .. selTo.line` visited by the loops of
`countUnderlinedLines` and `applyMultiLineToggle`. -/
def lineRange (selFrom selTo : Pos) : List Nat :=
  List.range' selFrom.line (selTo.line + 1 - selFrom.line)

/-- One iteration of the counting loop of `countUnderlinedLines`: empty
slices (`from >= to`) are skipped, non-empty ones bump the total and, when
classified underlined, the underlined count. -/
def countStep (b : List (List Char)) (selFrom selTo : Pos) (acc : Nat × Nat) (i : Nat) :
    Nat × Nat :=
  let line := getLineD b i
  let s := getLineSlice line i selFrom selTo
  if s.2 ≤ s.1 then acc
  else ((if (getUnderlineState line s.1 s.2).isUnderlined then acc.1 + 1 else acc.1),
        acc.2 + 1)

/-- Embedding of `countUnderlinedLines(editor, selFrom, selTo)` from
`src/toggle-command.ts`: `(underlined, total)` over the non-empty selected
slices. -/
def countUnderlinedLines (b : List (List Char)) (selFrom selTo : Pos) : Nat × Nat :=
  (lineRange selFrom selTo).foldl (countStep b selFrom selTo) (0, 0)

/-- The selected slice of line `i` is non-empty — the criterion by which
`countUnderlinedLines` includes a line in its totals. -/
def sliceNonempty (b : List (List Char)) (selFrom selTo : Pos) (i : Nat) : Bool :=
  decide ((getLineSlice (getLineD b i) i selFrom selTo).1 <
    (getLineSlice (getLineD b i) i selFrom selTo).2)

/-- The selected slice of line `i` is non-empty and classified underlined. -/
def sliceUnderlined (b : List (List Char)) (selFrom selTo : Pos) (i : Nat) : Bool :=
  sliceNonempty b selFrom selTo i &&
  (getUnderlineState (getLineD b i)
    (getLineSlice (getLineD b i) i selFrom selTo).1
    (getLineSlice (getLineD b i) i selFrom selTo).2).isUnderlined

/-- The vote `underlined > total / 2` of `applyMultiLineToggle`; JavaScript
`/` is exact division on numbers, so the comparison is `total < 2 * underlined`. -/
def shouldRemoveVote (underlined total : Nat) : Bool :=
  decide (total < 2 * underlined)

/-- Effect of one iteration of the `applyMultiLineToggle` loop on the line
it touches: skip empty slices, strip marks when removing an underlined
slice, wrap when inserting on a not-underlined slice, otherwise leave the
line untouched. -/
def toggleLineSlice (line : List Char) (i : Nat) (selFrom selTo : Pos)
    (remove : Bool) : List Char :=
  let s := getLineSlice line i selFrom selTo
  if s.2 ≤ s.1 then line
  else
    let state := getUnderlineState line s.1 s.2
    let content := sliceL line state.contentFrom state.contentTo
    if remove ∧ state.isUnderlined then
      replaceRange line content state.markFrom state.markTo
    else if ¬remove ∧ ¬state.isUnderlined then
      replaceRange line ('_' :: content ++ ['_']) s.1 s.2
    else line

/-- One iteration of the reverse loop of `applyMultiLineToggle`: line `i`
of the buffer is replaced by its toggled form (all edits issued by the
source on iteration `i` are single-line edits on line `i`). -/
def multiStep (selFrom selTo : Pos) (remove : Bool)
    (b : List (List Char)) (i : Nat) : List (List Char) :=
  b.set i (toggleLineSlice (getLineD b i) i selFrom selTo remove)

/-- Embedding of `applyMultiLineToggle(editor, selFrom, selTo)` from
`src/toggle-command.ts`: vote, then process lines in descending order. -/
def applyMultiLineToggle (b : List (List Char)) (selFrom selTo : Pos) : List (List Char) :=
  let c := countUnderlinedLines b selFrom selTo
  let remove := shouldRemoveVote c.1 c.2
  (lineRange selFrom selTo).reverse.foldl (multiStep selFrom selTo remove) b

/-- Search for the closing underscore of `UNDERSCORE_RE` (the regex
`/_([^_\n]+?)_/g` of `src/editor-decoration.ts`): walking the characters
after an opening underscore, a non-greedy match closes at the first
underscore provided at least one non-underscore non-newline content
character (`n >= 1`) was passed; a newline or line end aborts. -/
def findClose : List Char → Nat → Option (Nat × List Char)
  | [], _ => none
  | c :: rest, n =>
    if c = '_' then
      if n = 0 then none else some (n, rest)
    else if c = '\n' then none
    else findClose rest (n + 1)

/-- Fuel-driven form of the `UNDERSCORE_RE.exec` scanning loop of
`buildDecorations`: at each position try to start a match; on success
record the span `(markFrom, markTo)` and resume immediately after the
closing mark, otherwise advance one position. -/
def scanSpansF : Nat → List Char → Nat → List (Nat × Nat)
  | 0, _, _ => []
  | _ + 1, [], _ => []
  | fuel + 1, c :: rest, i =>
    if c = '_' then
      match findClose rest 0 with
      | some (n, rest2) => (i, i + n + 2) :: scanSpansF fuel rest2 (i + n + 2)
      | none => scanSpansF fuel rest (i + 1)
    else scanSpansF fuel rest (i + 1)

/-- The ordered `(markFrom, markTo)` spans that the scanning loop of
`buildDecorations` produces on one (sanitized) line; every step of the
loop consumes at least one character, so `length` fuel suffices. -/
def underscoreSpans (l : List Char) : List (Nat × Nat) :=
  scanSpansF l.length l 0

/-- Result of the top-level toggle command: the buffer lines after the
edit, and the selection explicitly set by the command (`none` when the
source returns without touching the selection). -/
structure CommandResult where
  lines : List (List Char)
  sel : Option (Pos × Pos)
deriving DecidableEq

/-- Lift the single-line toggle result onto the buffer. -/
def liftSingle (lines : List (List Char)) (ln : Nat) (r : ToggleResult) : CommandResult :=
  ⟨lines.set ln r.line, r.sel.map (fun p => (⟨ln, p.1⟩, ⟨ln, p.2⟩))⟩

/-- Embedding of `toggleUnderlineCommand(editor)` from
`src/toggle-command.ts`, over a buffer and the ordered cursor pair
`(from, to)`: mode 1 (no selection, word detection / empty-pair insert or
delete), mode 2 (single-line selection), mode 3 (multi-line selection). -/
def toggleUnderlineCommand (lines : List (List Char)) (selFrom selTo : Pos) : CommandResult :=
  if selFrom.line = selTo.line ∧ selFrom.ch = selTo.ch then
    let line := getLineD lines selFrom.line
    let word := detectWordRange line selFrom.ch
    if word.1 = word.2 then
      if 0 < selFrom.ch ∧ selFrom.ch < line.length ∧
          isUS line ((selFrom.ch : Int) - 1) ∧ isUS line selFrom.ch then
        ⟨lines.set selFrom.line (replaceRange line [] (selFrom.ch - 1) (selFrom.ch + 1)), none⟩
      else
        ⟨lines.set selFrom.line (replaceRange line ['_', '_'] selFrom.ch selFrom.ch),
         some (⟨selFrom.line, selFrom.ch + 1⟩, ⟨selFrom.line, selFrom.ch + 1⟩)⟩
    else
      liftSingle lines selFrom.line (applySingleLineToggle line word.1 word.2)
  else if selFrom.line = selTo.line then
    liftSingle lines selFrom.line
      (applySingleLineToggle (getLineD lines selFrom.line) selFrom.ch selTo.ch)
  else
    ⟨applyMultiLineToggle lines selFrom selTo, none⟩

example : getUnderlineState "_hello_".data 1 6 = ⟨true, 0, 7, 1, 6⟩ := by decide
example : getUnderlineState "_hello_".data 0 7 = ⟨true, 0, 7, 1, 6⟩ := by decide
example : getUnderlineState "__text__".data 0 8 = ⟨false, 0, 8, 0, 8⟩ := by decide
example : getUnderlineState "__text__".data 2 6 = ⟨false, 2, 6, 2, 6⟩ := by decide
example : (getUnderlineState "_word__".data 1 5).isUnderlined = false := by decide
example : (getUnderlineState "__x__".data 1 4).isUnderlined = true := by decide
example : detectWordRange "hello world".data 8 = (6, 11) := by decide
example : detectWordRange "hello world".data 5 = (5, 5) := by decide
example : detectWordRange "_hello_".data 3 = (1, 6) := by decide
example : detectWordRange "".data 0 = (0, 0) := by decide
example : applySingleLineToggle "hello world".data 6 11 =
    ⟨"hello _world_".data, some (13, 13)⟩ := by decide
example : applySingleLineToggle "_hello_".data 1 6 =
    ⟨"hello".data, some (0, 5)⟩ := by decide
example : (applySingleLineToggle (applySingleLineToggle "_a".data 1 2).line 2 3).line =
    "___a__".data := by decide

example : countUnderlinedLines ["_first_".data, "plain".data, "_third_".data]
    ⟨0, 0⟩ ⟨2, 7⟩ = (2, 3) := by decide
example : countUnderlinedLines ["hello".data, "world".data] ⟨0, 5⟩ ⟨1, 5⟩ = (0, 1) := by decide
example : applyMultiLineToggle ["_first_".data, "_second_".data, "plain".data]
    ⟨0, 0⟩ ⟨2, 5⟩ = ["first".data, "second".data, "plain".data] := by decide
example : applyMultiLineToggle ["_a_".data, "bc".data] ⟨0, 0⟩ ⟨1, 2⟩ =
    ["_a_".data, "_bc_".data] := by decide
example : underscoreSpans "_a_ _b_".data = [(0, 3), (4, 7)] := by decide
example : underscoreSpans "_a_".data = [(0, 3)] := by decide
example : underscoreSpans "a_b".data = [] := by decide
example : underscoreSpans "__".data = [] := by decide
example : underscoreSpans "__a_".data = [(1, 4)] := by decide
example : toggleUnderlineCommand ["hello world".data] ⟨0, 5⟩ ⟨0, 5⟩ =
    ⟨["hello__ world".data], some (⟨0, 6⟩, ⟨0, 6⟩)⟩ := by decide
example : toggleUnderlineCommand ["__".data] ⟨0, 1⟩ ⟨0, 1⟩ = ⟨[[]], none⟩ := by decide
example : toggleUnderlineCommand ["hello world".data] ⟨0, 8⟩ ⟨0, 8⟩ =
    ⟨["hello _world_".data], some (⟨0, 13⟩, ⟨0, 13⟩)⟩ := by decide

/-! Helper lemmas about indexing. -/

lemma chAt_natCast (l : List Char) (n : Nat) : chAt l (n : Int) = l.get? n := by
  simp [chAt]

lemma chAt_of_eq_natCast (l : List Char) (i : Int) (n : Nat) (h : i = (n : Int)) :
    chAt l i = l.get? n := by
  subst h; exact chAt_natCast l n

lemma chAt_of_neg (l : List Char) (i : Int) (h : i < 0) : chAt l i = none := by
  simp [chAt]; omega

lemma isUS_eq_of_natCast (l : List Char) (i : Int) (n : Nat) (h : i = (n : Int)) :
    isUS l i = decide (l.get? n = some '_') := by
  simp [isUS, chAt_of_eq_natCast l i n h]

lemma isUS_of_neg (l : List Char) (i : Int) (h : i < 0) : isUS l i = false := by
  simp [isUS, chAt_of_neg l i h]

lemma isUS_of_ge_length (l : List Char) (i : Int) (h : (l.length : Int) ≤ i) :
    isUS l i = false := by
  have hn : i = ((i.toNat : Nat) : Int) := by omega
  rw [isUS_eq_of_natCast l i i.toNat hn, List.get?_eq_none.mpr (by omega)]
  simp

/-! Helper lemmas about `getUnderlineState`. -/

lemma gus_of_cond1 (line : List Char) (f t : Nat)
    (h : marksIncludedCond line f t = true) :
    getUnderlineState line f t = ⟨true, f, t, f + 1, t - 1⟩ := by
  simp [getUnderlineState, h]

lemma gus_of_cond2 (line : List Char) (f t : Nat)
    (h1 : marksIncludedCond line f t = false) (h2 : marksExcludedCond line f t = true) :
    getUnderlineState line f t = ⟨true, f - 1, t + 1, f, t⟩ := by
  simp [getUnderlineState, h1, h2]

lemma gus_of_neither (line : List Char) (f t : Nat)
    (h1 : marksIncludedCond line f t = false) (h2 : marksExcludedCond line f t = false) :
    getUnderlineState line f t = ⟨false, f, t, f, t⟩ := by
  simp [getUnderlineState, h1, h2]

lemma gus_false_inv (line : List Char) (f t : Nat)
    (h : (getUnderlineState line f t).isUnderlined = false) :
    marksIncludedCond line f t = false ∧ marksExcludedCond line f t = false ∧
      getUnderlineState line f t = ⟨false, f, t, f, t⟩ := by
  by_cases h1 : marksIncludedCond line f t = true
  · rw [gus_of_cond1 line f t h1] at h; simp at h
  · have h1' : marksIncludedCond line f t = false := by
      revert h1; cases marksIncludedCond line f t <;> simp
    by_cases h2 : marksExcludedCond line f t = true
    · rw [gus_of_cond2 line f t h1' h2] at h; simp at h
    · have h2' : marksExcludedCond line f t = false := by
        revert h2; cases marksExcludedCond line f t <;> simp
      exact ⟨h1', h2', gus_of_neither line f t h1' h2'⟩

/-! Helper lemmas about slices and range replacement. -/

lemma sliceL_length (l : List Char) (f t : Nat) (ht : t ≤ l.length) :
    (sliceL l f t).length = t - f := by
  simp [sliceL]; omega

lemma take_slice_drop (l : List Char) (f t : Nat) (h : f ≤ t) :
    l.take f ++ (sliceL l f t ++ l.drop t) = l := by
  have h1 : (l.drop f).drop (t - f) = l.drop t := by
    rw [List.drop_drop]; congr 1; omega
  calc l.take f ++ (sliceL l f t ++ l.drop t)
      = l.take f ++ ((l.drop f).take (t - f) ++ (l.drop f).drop (t - f)) := by
        rw [sliceL, h1]
    _ = l.take f ++ l.drop f := by rw [List.take_append_drop]
    _ = l := List.take_append_drop f l

/-! Shape lemmas for `applySingleLineToggle`. -/

lemma applySingle_wrap (line : List Char) (f t : Nat) (hne : f ≠ t)
    (h : (getUnderlineState line f t).isUnderlined = false) :
    applySingleLineToggle line f t =
      ⟨line.take f ++ '_' :: (sliceL line f t ++ '_' :: line.drop t),
       some (f + (sliceL line f t).length + 2, f + (sliceL line f t).length + 2)⟩ := by
  obtain ⟨-, -, heq⟩ := gus_false_inv line f t h
  unfold applySingleLineToggle
  rw [if_neg hne, heq]
  simp [replaceRange]

lemma applySingle_remove2 (line : List Char) (f t : Nat) (hne : f ≠ t)
    (h1 : marksIncludedCond line f t = false) (h2 : marksExcludedCond line f t = true) :
    applySingleLineToggle line f t =
      ⟨line.take (f - 1) ++ sliceL line f t ++ line.drop (t + 1),
       some (f - 1, (f - 1) + (sliceL line f t).length)⟩ := by
  unfold applySingleLineToggle
  rw [if_neg hne, gus_of_cond2 line f t h1 h2]
  simp [replaceRange]

lemma get?_append_at (A l2 : List Char) (k : Nat) :
    (A ++ l2).get? (A.length + k) = l2.get? k := by
  rw [List.get?_append_right (Nat.le_add_right _ _)]
  congr 1
  omega

/-- Index computation on a wrapped line `take f ++ "_" ++ content ++ "_" ++ drop t`:
positions below `f` and above `t + 1` read the original line shifted by 0
and 2 respectively, position `f` and `t + 1` hold the two inserted marks,
and positions strictly between read the original content shifted by 1. -/
lemma wrap_get (line : List Char) (f t : Nat) (hf : f < t) (ht : t ≤ line.length) (j : Nat) :
    (line.take f ++ '_' :: (sliceL line f t ++ '_' :: line.drop t)).get? j =
      if j < f then line.get? j
      else if j = f then some '_'
      else if j < t + 1 then line.get? (j - 1)
      else if j = t + 1 then some '_'
      else line.get? (j - 2) := by
  have hA : (line.take f).length = f := by simp; omega
  have hclen : (sliceL line f t).length = t - f := sliceL_length line f t ht
  rcases Nat.lt_or_ge j f with hj | hj
  · rw [List.get?_append (by rw [hA]; exact hj), List.get?_take hj,
      if_pos hj]
  · obtain ⟨k, rfl⟩ : ∃ k, j = f + k := ⟨j - f, by omega⟩
    have hrw := get?_append_at (line.take f)
      ('_' :: (sliceL line f t ++ '_' :: line.drop t)) k
    rw [hA] at hrw
    rw [hrw]
    match k with
    | 0 =>
      rw [if_neg (by omega), if_pos (by omega)]
      rfl
    | Nat.succ k' =>
      rw [List.get?_cons_succ]
      rcases Nat.lt_or_ge k' (t - f) with hk' | hk'
      · rw [List.get?_append (by rw [hclen]; exact hk'), sliceL,
          List.get?_take hk', List.get?_drop,
          if_neg (by omega), if_neg (by omega), if_pos (by omega)]
        congr 1
      · rw [List.get?_append_right (by rw [hclen]; exact hk'), hclen]
        rcases Nat.eq_or_lt_of_le hk' with hk2 | hk2
        · rw [show k' - (t - f) = 0 by omega, List.get?_cons_zero,
            if_neg (by omega), if_neg (by omega), if_neg (by omega),
            if_pos (by omega)]
        · obtain ⟨m, hm⟩ : ∃ m, k' - (t - f) = m + 1 := ⟨k' - (t - f) - 1, by omega⟩
          rw [hm, List.get?_cons_succ, List.get?_drop,
            if_neg (by omega), if_neg (by omega), if_neg (by omega),
            if_neg (by omega)]
          congr 1
          omega

lemma wrap_length (line : List Char) (f t : Nat) (hf : f ≤ t) (ht : t ≤ line.length) :
    (line.take f ++ '_' :: (sliceL line f t ++ '_' :: line.drop t)).length =
      line.length + 2 := by
  simp [sliceL]
  omega

/-! Loop-invariant lemmas for the word-boundary expansion loops. -/

lemma expandLeft_le (line : List Char) : ∀ ch, expandLeft line ch ≤ ch := by
  intro ch
  induction ch with
  | zero => simp [expandLeft]
  | succ n ih =>
    rw [expandLeft]
    split
    · exact Nat.le_refl _
    · exact Nat.le_trans ih (Nat.le_succ n)

lemma expandLeft_nostop (line : List Char) :
    ∀ ch j, expandLeft line ch ≤ j → j < ch → isStopAt line (j : Int) = false := by
  intro ch
  induction ch with
  | zero => intro j h1 h2; omega
  | succ n ih =>
    intro j h1 h2
    by_cases hs : isStopAt line (n : Int) = true
    · rw [expandLeft, if_pos hs] at h1; omega
    · have hs' : isStopAt line (n : Int) = false := by
        revert hs; cases isStopAt line (n : Int) <;> simp
      rw [expandLeft, if_neg (by rw [hs']; simp)] at h1
      rcases Nat.lt_or_ge j n with hj | hj
      · exact ih j h1 hj
      · have : j = n := by omega
        rw [this, hs']

lemma expandLeft_boundary (line : List Char) :
    ∀ ch, expandLeft line ch = 0 ∨
      isStopAt line ((expandLeft line ch : Int) - 1) = true := by
  intro ch
  induction ch with
  | zero => left; simp [expandLeft]
  | succ n ih =>
    by_cases hs : isStopAt line (n : Int) = true
    · right
      rw [expandLeft, if_pos hs]
      rw [show ((n + 1 : Nat) : Int) - 1 = (n : Int) by omega]
      exact hs
    · have hs' : isStopAt line (n : Int) = false := by
        revert hs; cases isStopAt line (n : Int) <;> simp
      rw [expandLeft, if_neg (by rw [hs']; simp)]
      exact ih

lemma expandRightF_ge (line : List Char) :
    ∀ f r, r ≤ expandRightF line f r := by
  intro f
  induction f with
  | zero => intro r; simp [expandRightF]
  | succ f ih =>
    intro r
    rw [expandRightF]
    split
    · exact Nat.le_trans (Nat.le_succ r) (ih (r + 1))
    · exact Nat.le_refl r

lemma expandRightF_le_length (line : List Char) :
    ∀ f r, r ≤ line.length → expandRightF line f r ≤ line.length := by
  intro f
  induction f with
  | zero => intro r h; simpa [expandRightF] using h
  | succ f ih =>
    intro r h
    rw [expandRightF]
    split
    · next hg => exact ih (r + 1) (by omega)
    · exact h

lemma expandRightF_nostop (line : List Char) :
    ∀ f r j, r ≤ j → j < expandRightF line f r → isStopAt line (j : Int) = false := by
  intro f
  induction f with
  | zero => intro r j h1 h2; rw [expandRightF] at h2; omega
  | succ f ih =>
    intro r j h1 h2
    by_cases hg : r < line.length ∧ isStopAt line (r : Int) = false
    · rw [expandRightF, if_pos hg] at h2
      rcases Nat.lt_or_ge r j with hj | hj
      · exact ih (r + 1) j (by omega) h2
      · have : j = r := by omega
        rw [this]; exact hg.2
    · rw [expandRightF, if_neg hg] at h2; omega

lemma expandRightF_boundary (line : List Char) :
    ∀ f r, line.length ≤ r + f → r ≤ line.length →
      expandRightF line f r = line.length ∨
        isStopAt line ((expandRightF line f r : Int)) = true := by
  intro f
  induction f with
  | zero =>
    intro r h1 h2
    left
    rw [expandRightF]
    omega
  | succ f ih =>
    intro r h1 h2
    by_cases hg : r < line.length ∧ isStopAt line (r : Int) = false
    · rw [expandRightF, if_pos hg]
      exact ih (r + 1) (by omega) (by omega)
    · rw [expandRightF, if_neg hg]
      rcases Classical.em (r < line.length) with hr | hr
      · right
        have : ¬ isStopAt line (r : Int) = false := fun hc => hg ⟨hr, hc⟩
        revert this; cases isStopAt line (r : Int) <;> simp
      · left; omega

/-- C9: `getUnderlineState` and `detectWordRange` are total over every line
and every column: out-of-bounds index accesses read as `none` and test as
"not an underscore" / "not a stop character" (including negative indices,
position 0 and the line length), every classification returns either an
underlined state or the not-underlined default, and every word detection
returns a well-ordered range around the queried column. -/
theorem claim_C9_totality :
    (∀ (l : List Char) (i : Int), i < 0 ∨ (l.length : Int) ≤ i →
      chAt l i = none ∧ isUS l i = false ∧ isStopAt l i = false) ∧
    (∀ (l : List Char) (f t : Nat), (getUnderlineState l f t).isUnderlined = true ∨
      getUnderlineState l f t = ⟨false, f, t, f, t⟩) ∧
    (∀ (l : List Char) (ch : Nat),
      (detectWordRange l ch).1 ≤ ch ∧ ch ≤ (detectWordRange l ch).2) := by
  refine ⟨?_, ?_, ?_⟩
  · intro l i h
    have hnone : chAt l i = none := by
      rcases h with h | h
      · exact chAt_of_neg l i h
      · rw [chAt, if_pos (by omega)]
        exact List.get?_eq_none.mpr (by omega)
    refine ⟨hnone, ?_, ?_⟩
    · simp [isUS, hnone]
    · simp [isStopAt, hnone]
  · intro l f t
    by_cases h1 : marksIncludedCond l f t = true
    · left; rw [gus_of_cond1 l f t h1]
    · have h1' : marksIncludedCond l f t = false := by
        revert h1; cases marksIncludedCond l f t <;> simp
      by_cases h2 : marksExcludedCond l f t = true
      · left; rw [gus_of_cond2 l f t h1' h2]
      · have h2' : marksExcludedCond l f t = false := by
          revert h2; cases marksExcludedCond l f t <;> simp
        right; exact gus_of_neither l f t h1' h2'
  · intro l ch
    rw [detectWordRange]
    split
    · exact ⟨Nat.le_refl ch, Nat.le_refl ch⟩
    · exact ⟨expandLeft_le l ch, expandRightF_ge l (l.length - ch) ch⟩

/-- Witness for C9 at a concrete out-of-bounds access. -/
theorem claim_C9_witness :
    chAt "ab".data 5 = none ∧ isUS "ab".data 5 = false ∧ isStopAt "ab".data 5 = false :=
  claim_C9_totality.1 "ab".data 5 (by decide)

/-- C10: for every line and range, the returned `UnderlineState` satisfies:
when underlined, each mark flanks the content by exactly one character
(`markFrom + 1 = contentFrom` and `markTo = contentTo + 1`); when not
underlined, marks and content both collapse to the queried range. -/
theorem claim_C10_classifier_invariant :
    ∀ (line : List Char) (selFrom selTo : Nat),
      ((getUnderlineState line selFrom selTo).isUnderlined = true →
        (getUnderlineState line selFrom selTo).markFrom + 1 =
          (getUnderlineState line selFrom selTo).contentFrom ∧
        (getUnderlineState line selFrom selTo).markTo =
          (getUnderlineState line selFrom selTo).contentTo + 1) ∧
      ((getUnderlineState line selFrom selTo).isUnderlined = false →
        getUnderlineState line selFrom selTo =
          ⟨false, selFrom, selTo, selFrom, selTo⟩) := by
  intro line f t
  by_cases h1 : marksIncludedCond line f t = true
  · have hge : f + 2 ≤ t := by
      have := h1
      unfold marksIncludedCond at this
      simp only [Bool.and_eq_true, decide_eq_true_eq] at this
      exact this.1.1.1
    rw [gus_of_cond1 line f t h1]
    exact ⟨fun _ => ⟨rfl, by simp; omega⟩, fun hc => by simp at hc⟩
  · have h1' : marksIncludedCond line f t = false := by
      revert h1; cases marksIncludedCond line f t <;> simp
    by_cases h2 : marksExcludedCond line f t = true
    · have hpos : 0 < f := by
        have := h2
        unfold marksExcludedCond at this
        simp only [Bool.and_eq_true, decide_eq_true_eq] at this
        exact this.1.1.1.1.1
      rw [gus_of_cond2 line f t h1' h2]
      exact ⟨fun _ => ⟨by simp; omega, rfl⟩, fun hc => by simp at hc⟩
    · have h2' : marksExcludedCond line f t = false := by
        revert h2; cases marksExcludedCond line f t <;> simp
      rw [gus_of_neither line f t h1' h2']
      exact ⟨fun hc => by simp at hc, fun _ => rfl⟩

/-- Witness for C10 at a concrete underlined and a concrete plain range. -/
theorem claim_C10_witness :
    ((getUnderlineState "_hello_".data 1 6).markFrom + 1 =
        (getUnderlineState "_hello_".data 1 6).contentFrom ∧
      (getUnderlineState "_hello_".data 1 6).markTo =
        (getUnderlineState "_hello_".data 1 6).contentTo + 1) ∧
    getUnderlineState "plain".data 0 5 = ⟨false, 0, 5, 0, 5⟩ :=
  ⟨(claim_C10_classifier_invariant "_hello_".data 1 6).1 (by decide),
   (claim_C10_classifier_invariant "plain".data 0 5).2 (by decide)⟩

/-- C4 (amended): when the marks-excluded preconditions hold — flanking
underscores just outside the range, no double underscore beyond either
mark, range strictly inside the line — and the marks-included case (which
is checked first) does not fire, `getUnderlineState` reports underlined
with marks `[rangeFrom−1, rangeTo+1)` and content `[rangeFrom, rangeTo)`;
in particular `getUnderlineState "_hello_" 1 6 = {true, 0, 7, 1, 6}`. -/
theorem claim_C4_marks_excluded :
    (∀ (line : List Char) (f t : Nat), 0 < f → t < line.length →
      isUS line ((f : Int) - 1) = true → isUS line (t : Int) = true →
      isUS line ((f : Int) - 2) = false → isUS line ((t : Int) + 1) = false →
      marksIncludedCond line f t = false →
      getUnderlineState line f t = ⟨true, f - 1, t + 1, f, t⟩) ∧
    getUnderlineState "_hello_".data 1 6 = ⟨true, 0, 7, 1, 6⟩ := by
  constructor
  · intro line f t hf ht h1 h2 h3 h4 hc1
    have hc2 : marksExcludedCond line f t = true := by
      unfold marksExcludedCond
      rw [h1, h2, h3, h4, decide_eq_true hf, decide_eq_true ht]
      rfl
    exact gus_of_cond2 line f t hc1 hc2
  · decide

/-- Counterexample to C4 as stated: on the line `a__a__a` with range
`[2,5)` every marks-excluded precondition of the claim holds, yet the
marks-included case fires first and the state is not the one the claim
asserts (`{true, 1, 6, 2, 5}`). -/
theorem claim_C4_counterexample :
    (0 < 2 ∧ 5 < "a__a__a".data.length ∧
      isUS "a__a__a".data ((2 : Int) - 1) = true ∧
      isUS "a__a__a".data (5 : Int) = true ∧
      isUS "a__a__a".data ((2 : Int) - 2) = false ∧
      isUS "a__a__a".data ((5 : Int) + 1) = false) ∧
    getUnderlineState "a__a__a".data 2 5 = ⟨true, 2, 5, 3, 4⟩ ∧
    getUnderlineState "a__a__a".data 2 5 ≠ ⟨true, 1, 6, 2, 5⟩ := by
  decide

/-- Witness for C4 on the scenario line. -/
theorem claim_C4_witness :
    getUnderlineState "xx_hello_x".data 3 8 = ⟨true, 2, 9, 3, 8⟩ :=
  claim_C4_marks_excluded.1 "xx_hello_x".data 3 8 (by decide) (by decide)
    (by decide) (by decide) (by decide) (by decide) (by decide)

/-- C7: a single-line toggle of a non-empty range that is classified not
underlined replaces `[from, to)` by underscore + content + underscore and
collapses the cursor to the point immediately after the inserted closing
mark; in particular on `"hello world"` with range `[6,11)` it produces
`"hello _world_"` with the cursor collapsed at column 13. -/
theorem claim_C7_wrap_and_collapse :
    (∀ (line : List Char) (f t : Nat), f < t →
      (getUnderlineState line f t).isUnderlined = false →
      applySingleLineToggle line f t =
        ⟨line.take f ++ '_' :: (sliceL line f t ++ '_' :: line.drop t),
         some (f + (sliceL line f t).length + 2, f + (sliceL line f t).length + 2)⟩) ∧
    applySingleLineToggle "hello world".data 6 11 =
      ⟨"hello _world_".data, some (13, 13)⟩ := by
  constructor
  · intro line f t hft h
    exact applySingle_wrap line f t (by omega) h
  · decide

/-- Witness for C7 at the scenario input. -/
theorem claim_C7_witness :
    applySingleLineToggle "hello world".data 6 11 =
      ⟨"hello world".data.take 6 ++
        '_' :: (sliceL "hello world".data 6 11 ++ '_' :: "hello world".data.drop 11),
       some (6 + (sliceL "hello world".data 6 11).length + 2,
             6 + (sliceL "hello world".data 6 11).length + 2)⟩ :=
  claim_C7_wrap_and_collapse.1 "hello world".data 6 11 (by decide) (by decide)

/-- Rewriting form of `isUS` at a natural-number position. -/
lemma isUS_natCast (l : List Char) (n : Nat) :
    isUS l (n : Int) = decide (l.get? n = some '_') :=
  isUS_eq_of_natCast l (n : Int) n rfl

/-- C2 (amended): on every line containing the substring `__x__`, the
classifier on the content range strictly between the two inner marks
returns isUnderlined = false (the left `__` guard blocks the marks-excluded
case); the sub-range that additionally includes the two inner marks is,
however, classified as underlined by the marks-included case. -/
theorem claim_C2_double_underscore :
    ∀ (a b : List Char),
      getUnderlineState (a ++ '_' :: '_' :: 'x' :: '_' :: '_' :: b)
          (a.length + 2) (a.length + 3) =
        ⟨false, a.length + 2, a.length + 3, a.length + 2, a.length + 3⟩ ∧
      getUnderlineState (a ++ '_' :: '_' :: 'x' :: '_' :: '_' :: b)
          (a.length + 1) (a.length + 4) =
        ⟨true, a.length + 1, a.length + 4, a.length + 2, a.length + 3⟩ := by
  intro a b
  have g : ∀ k : Nat, (a ++ '_' :: '_' :: 'x' :: '_' :: '_' :: b).get? (a.length + k) =
      ('_' :: '_' :: 'x' :: '_' :: '_' :: b).get? k :=
    fun k => get?_append_at a _ k
  have g0 := g 0
  have g1 := g 1
  have g2 := g 2
  have g3 := g 3
  simp only [List.get?_cons_zero, List.get?_cons_succ, Nat.add_zero] at g0 g1 g2 g3
  constructor
  · have hc1 : marksIncludedCond (a ++ '_' :: '_' :: 'x' :: '_' :: '_' :: b)
        (a.length + 2) (a.length + 3) = false := by
      unfold marksIncludedCond
      rw [decide_eq_false (by omega : ¬(a.length + 2 + 2 ≤ a.length + 3))]
      rfl
    have hc2 : marksExcludedCond (a ++ '_' :: '_' :: 'x' :: '_' :: '_' :: b)
        (a.length + 2) (a.length + 3) = false := by
      unfold marksExcludedCond
      rw [show ((a.length + 2 : Nat) : Int) - 2 = ((a.length : Nat) : Int) by omega,
        isUS_natCast _ a.length, g0]
      simp
    exact gus_of_neither _ _ _ hc1 hc2
  · have hc1 : marksIncludedCond (a ++ '_' :: '_' :: 'x' :: '_' :: '_' :: b)
        (a.length + 1) (a.length + 4) = true := by
      unfold marksIncludedCond
      rw [decide_eq_true (by omega : a.length + 1 + 2 ≤ a.length + 4),
        show ((a.length + 4 : Nat) : Int) - 1 = ((a.length + 3 : Nat) : Int) by omega,
        show ((a.length + 1 : Nat) : Int) + 1 = ((a.length + 2 : Nat) : Int) by omega,
        isUS_natCast _ (a.length + 1), isUS_natCast _ (a.length + 3),
        isUS_natCast _ (a.length + 2), g1, g2, g3]
      simp
    rw [gus_of_cond1 _ _ _ hc1]
    congr 1

lemma sliceL_eq (l : List Char) (f t : Nat) : sliceL l f t = (l.drop f).take (t - f) :=
  rfl

/-- C1 (amended): toggling a non-empty in-line range that is classified not
underlined, and whose immediate outside neighbours (the character just
before `from` and the character at `to`, when they exist) are not
underscores, and then toggling again on the resulting content range
`[from+1, to+1)`, returns the line to its original text. -/
theorem claim_C1_roundtrip :
    ∀ (line : List Char) (f t : Nat), f < t → t ≤ line.length →
      (getUnderlineState line f t).isUnderlined = false →
      isUS line ((f : Int) - 1) = false → isUS line (t : Int) = false →
      (applySingleLineToggle (applySingleLineToggle line f t).line (f + 1) (t + 1)).line =
        line := by
  intro line f t hft htl hU hL hR
  obtain ⟨hc1, hc2, -⟩ := gus_false_inv line f t hU
  have hg := wrap_get line f t hft htl
  have hline1 : (applySingleLineToggle line f t).line =
      line.take f ++ '_' :: (sliceL line f t ++ '_' :: line.drop t) := by
    rw [applySingle_wrap line f t (by omega) hU]
  rw [hline1]
  have hClen : (sliceL line f t).length = t - f := sliceL_length line f t htl
  have htklen : (line.take f).length = f := by rw [List.length_take]; omega
  -- the marks-included case does not fire on the wrapped line
  have hcond1W : marksIncludedCond
      (line.take f ++ '_' :: (sliceL line f t ++ '_' :: line.drop t)) (f + 1) (t + 1) =
      false := by
    by_cases h2 : f + 2 ≤ t
    · have e2 : isUS (line.take f ++ '_' :: (sliceL line f t ++ '_' :: line.drop t))
          ((f + 1 : Nat) : Int) = isUS line ((f : Nat) : Int) := by
        rw [isUS_natCast, isUS_natCast, hg (f + 1), if_neg (by omega),
          if_neg (by omega), if_pos (by omega), Nat.add_sub_cancel]
      have e3 : isUS (line.take f ++ '_' :: (sliceL line f t ++ '_' :: line.drop t))
          (((t + 1 : Nat) : Int) - 1) = isUS line (((t : Nat) : Int) - 1) := by
        rw [show ((t + 1 : Nat) : Int) - 1 = ((t : Nat) : Int) by omega,
          isUS_natCast, hg t, if_neg (by omega), if_neg (by omega), if_pos (by omega),
          show ((t : Nat) : Int) - 1 = ((t - 1 : Nat) : Int) by omega, isUS_natCast]
      have e4 : isUS (line.take f ++ '_' :: (sliceL line f t ++ '_' :: line.drop t))
          (((f + 1 : Nat) : Int) + 1) = isUS line (((f : Nat) : Int) + 1) := by
        rw [show ((f + 1 : Nat) : Int) + 1 = ((f + 2 : Nat) : Int) by omega,
          isUS_natCast, hg (f + 2), if_neg (by omega), if_neg (by omega),
          if_pos (by omega), show f + 2 - 1 = f + 1 by omega,
          show ((f : Nat) : Int) + 1 = ((f + 1 : Nat) : Int) by omega, isUS_natCast]
      unfold marksIncludedCond at hc1 ⊢
      rw [decide_eq_decide.mpr (by omega : (f + 1 + 2 ≤ t + 1) ↔ (f + 2 ≤ t)),
        e2, e3, e4]
      exact hc1
    · unfold marksIncludedCond
      rw [decide_eq_false (by omega : ¬(f + 1 + 2 ≤ t + 1))]
      rfl
  -- the marks-excluded case fires on the wrapped line
  have hcond2W : marksExcludedCond
      (line.take f ++ '_' :: (sliceL line f t ++ '_' :: line.drop t)) (f + 1) (t + 1) =
      true := by
    have c2 : decide (t + 1 <
        (line.take f ++ '_' :: (sliceL line f t ++ '_' :: line.drop t)).length) = true := by
      rw [wrap_length line f t (by omega) htl]
      exact decide_eq_true (by omega)
    have c3 : isUS (line.take f ++ '_' :: (sliceL line f t ++ '_' :: line.drop t))
        (((f + 1 : Nat) : Int) - 1) = true := by
      rw [show ((f + 1 : Nat) : Int) - 1 = ((f : Nat) : Int) by omega,
        isUS_natCast, hg f, if_neg (by omega), if_pos rfl]
      rfl
    have c4 : isUS (line.take f ++ '_' :: (sliceL line f t ++ '_' :: line.drop t))
        ((t + 1 : Nat) : Int) = true := by
      rw [isUS_natCast, hg (t + 1), if_neg (by omega), if_neg (by omega),
        if_neg (by omega), if_pos rfl]
      rfl
    have c5 : isUS (line.take f ++ '_' :: (sliceL line f t ++ '_' :: line.drop t))
        (((f + 1 : Nat) : Int) - 2) = false := by
      rcases Nat.eq_zero_or_pos f with hf0 | hf0
    
      · subst hf0
        exact isUS_of_neg _ _ (by omega)
      · rw [show ((f + 1 : Nat) : Int) - 2 = ((f - 1 : Nat) : Int) by omega,
          isUS_natCast, hg (f - 1), if_pos (by omega)]
        rw [show ((f : Nat) : Int) - 1 = ((f - 1 : Nat) : Int) by omega,
          isUS_natCast] at hL
        exact hL
    have c6 : isUS (line.take f ++ '_' :: (sliceL line f t ++ '_' :: line.drop t))
        (((t + 1 : Nat) : Int) + 1) = false := by
      rw [show ((t + 1 : Nat) : Int) + 1 = ((t + 2 : Nat) : Int) by omega,
        isUS_natCast, hg (t + 2), if_neg (by omega), if_neg (by omega),
        if_neg (by omega), if_neg (by omega), Nat.add_sub_cancel]
      rw [isUS_natCast] at hR
      exact hR
    unfold marksExcludedCond
    rw [decide_eq_true (by omega : 0 < f + 1), c2, c3, c4, c5, c6]
    rfl
  have hline2 : (applySingleLineToggle
      (line.take f ++ '_' :: (sliceL line f t ++ '_' :: line.drop t)) (f + 1) (t + 1)).line =
      (line.take f ++ '_' :: (sliceL line f t ++ '_' :: line.drop t)).take (f + 1 - 1) ++
        sliceL (line.take f ++ '_' :: (sliceL line f t ++ '_' :: line.drop t))
          (f + 1) (t + 1) ++
        (line.take f ++ '_' :: (sliceL line f t ++ '_' :: line.drop t)).drop (t + 1 + 1) := by
    rw [applySingle_remove2 _ (f + 1) (t + 1) (by omega) hcond1W hcond2W]
  rw [hline2]
  have hdrop1 : (line.take f ++ '_' :: (sliceL line f t ++ '_' :: line.drop t)).drop (f + 1) =
      sliceL line f t ++ '_' :: line.drop t := by
    rw [show f + 1 = (line.take f).length + 1 by omega, List.drop_append 1]
    simp
  have htake : (line.take f ++ '_' :: (sliceL line f t ++ '_' :: line.drop t)).take (f + 1 - 1) =
      line.take f := by
    rw [Nat.add_sub_cancel]
    exact List.take_left' htklen
  have hslice : sliceL (line.take f ++ '_' :: (sliceL line f t ++ '_' :: line.drop t))
      (f + 1) (t + 1) = sliceL line f t := by
    rw [sliceL_eq (line.take f ++ '_' :: (sliceL line f t ++ '_' :: line.drop t))
      (f + 1) (t + 1), hdrop1, show t + 1 - (f + 1) = t - f by omega]
    exact List.take_left' hClen
  have hdrop2 : (line.take f ++ '_' :: (sliceL line f t ++ '_' :: line.drop t)).drop
      (t + 1 + 1) = line.drop t := by
    rw [show t + 1 + 1 = (line.take f).length + (t + 2 - f) by omega,
      List.drop_append (t + 2 - f),
      show t + 2 - f = (t - f) + 1 + 1 by omega, List.drop_succ_cons,
      show (t - f) + 1 = (sliceL line f t).length + 1 by omega,
      List.drop_append 1]
    simp
  rw [htake, hslice, hdrop2, List.append_assoc]
  exact take_slice_drop line f t (by omega)

/-- Counterexample to C1 as stated: the range `[1,2)` of the line `_a` is
not underlined, yet toggling twice (second time on the content range
`[2,3)`) yields `___a__`, not the original line — the underscore just
before the range makes the second classification fail. -/
theorem claim_C1_counterexample :
    (getUnderlineState "_a".data 1 2).isUnderlined = false ∧
    (applySingleLineToggle (applySingleLineToggle "_a".data 1 2).line 2 3).line =
      "___a__".data ∧
    (applySingleLineToggle (applySingleLineToggle "_a".data 1 2).line 2 3).line ≠
      "_a".data := by
  decide

/-- Witness for C1 on the `"hello world"` scenario range. -/
theorem claim_C1_witness :
    (applySingleLineToggle (applySingleLineToggle "hello world".data 6 11).line 7 12).line =
      "hello world".data :=
  claim_C1_roundtrip "hello world".data 6 11 (by decide) (by decide) (by decide)
    (by decide) (by decide)

lemma isStopAt_lt_length (l : List Char) (n : Nat)
    (h : isStopAt l (n : Int) = true) : n < l.length := by
  by_contra hc
  have hnone : chAt l (n : Int) = none := by
    rw [chAt_natCast]
    exact List.get?_eq_none.mpr (by omega)
  unfold isStopAt at h
  rw [hnone] at h
  simp at h

/-- C8: when the character at the column is a stop character,
`detectWordRange` returns the empty range at that column; otherwise, for a
valid column, it returns a range around the column, bounded by the line,
containing no stop character, and delimited on each side by the line
boundary or a stop character; in particular
`detectWordRange "hello world" 8 = (6, 11)`. -/
theorem claim_C8_word_boundary :
    (∀ (line : List Char) (ch : Nat), isStopAt line (ch : Int) = true →
      detectWordRange line ch = (ch, ch)) ∧
    (∀ (line : List Char) (ch : Nat), ch ≤ line.length →
      isStopAt line (ch : Int) = false →
      (detectWordRange line ch).1 ≤ ch ∧ ch ≤ (detectWordRange line ch).2 ∧
      (detectWordRange line ch).2 ≤ line.length ∧
      (∀ j, (detectWordRange line ch).1 ≤ j → j < ch →
        isStopAt line (j : Int) = false) ∧
      (∀ j, ch ≤ j → j < (detectWordRange line ch).2 →
        isStopAt line (j : Int) = false) ∧
      ((detectWordRange line ch).1 = 0 ∨
        isStopAt line (((detectWordRange line ch).1 : Int) - 1) = true) ∧
      ((detectWordRange line ch).2 = line.length ∨
        isStopAt line (((detectWordRange line ch).2 : Int)) = true)) ∧
    detectWordRange "hello world".data 8 = (6, 11) := by
  refine ⟨?_, ?_, by decide⟩
  · intro line ch h
    rw [detectWordRange, if_pos ⟨isStopAt_lt_length line ch h, h⟩]
  · intro line ch hch h
    have hcond : ¬(ch < line.length ∧ isStopAt line (ch : Int) = true) := by
      intro hc
      rw [h] at hc
      exact absurd hc.2 (by simp)
    rw [detectWordRange, if_neg hcond]
    refine ⟨expandLeft_le line ch, expandRightF_ge line (line.length - ch) ch,
      expandRightF_le_length line (line.length - ch) ch hch,
      fun j h1 h2 => expandLeft_nostop line ch j h1 h2,
      fun j h1 h2 => expandRightF_nostop line (line.length - ch) ch j h1 h2,
      expandLeft_boundary line ch,
      expandRightF_boundary line (line.length - ch) ch (by omega) hch⟩

/-- Witness for C8 at a stop column and a word column. -/
theorem claim_C8_witness :
    detectWordRange "hello world".data 5 = (5, 5) ∧
    (detectWordRange "hello world".data 8).1 ≤ 8 :=
  ⟨claim_C8_word_boundary.1 "hello world".data 5 (by decide),
   (claim_C8_word_boundary.2.1 "hello world".data 8 (by decide) (by decide)).1⟩

lemma findClose_pos : ∀ (cs : List Char) (n m : Nat) (r : List Char),
    findClose cs n = some (m, r) → 1 ≤ m ∧ n ≤ m := by
  intro cs
  induction cs with
  | nil => intro n m r h; simp [findClose] at h
  | cons c rest ih =>
    intro n m r h
    simp only [findClose] at h
    by_cases hc : c = '_'
    · rw [if_pos hc] at h
      by_cases hn : n = 0
      · rw [if_pos hn] at h; exact absurd h (by simp)
      · rw [if_neg hn] at h
        have := Option.some.inj h
        obtain ⟨h1, -⟩ := Prod.mk.injEq .. ▸ this
        omega
    · rw [if_neg hc] at h
      by_cases hnl : c = '\n'
      · rw [if_pos hnl] at h; exact absurd h (by simp)
      · rw [if_neg hnl] at h
        have := ih (n + 1) m r h
        omega

lemma findClose_none_of_count : ∀ (cs : List Char) (n : Nat),
    cs.count '_' = 0 → findClose cs n = none := by
  intro cs
  induction cs with
  | nil => intro n h; rfl
  | cons c rest ih =>
    intro n h
    have hc : c ≠ '_' := by
      intro hcc
      subst hcc
      simp [List.count_cons] at h
    have hrest : rest.count '_' = 0 := by
      rw [List.count_cons] at h
      omega
    simp only [findClose]
    rw [if_neg hc]
    by_cases hnl : c = '\n'
    · rw [if_pos hnl]
    · rw [if_neg hnl]
      exact ih (n + 1) hrest

lemma scanSpansF_nil_of_count : ∀ (fuel : Nat) (l : List Char) (i : Nat),
    l.count '_' ≤ 1 → scanSpansF fuel l i = [] := by
  intro fuel
  induction fuel with
  | zero => intro l i h; rfl
  | succ fuel ih =>
    intro l i h
    cases l with
    | nil => rfl
    | cons c rest =>
      by_cases hc : c = '_'
      · have hcnt : rest.count '_' = 0 := by
          subst hc
          rw [List.count_cons] at h
          simp at h
          omega
        simp only [scanSpansF, if_pos hc, findClose_none_of_count rest 0 hcnt]
        exact ih rest (i + 1) (by omega)
      · have hcnt : rest.count '_' ≤ 1 := by
          rw [List.count_cons] at h
          omega
        simp only [scanSpansF, if_neg hc]
        exact ih rest (i + 1) hcnt

lemma scanSpansF_mem_ge : ∀ (fuel : Nat) (l : List Char) (i f t : Nat),
    (f, t) ∈ scanSpansF fuel l i → f + 3 ≤ t := by
  intro fuel
  induction fuel with
  | zero => intro l i f t h; simp [scanSpansF] at h
  | succ fuel ih =>
    intro l i f t h
    cases l with
    | nil => simp [scanSpansF] at h
    | cons c rest =>
      by_cases hc : c = '_'
      · rcases hfc : findClose rest 0 with - | ⟨n, rest2⟩
        · rw [scanSpansF, if_pos hc, hfc] at h
          exact ih rest (i + 1) f t h
        · rw [scanSpansF, if_pos hc, hfc] at h
          rcases List.mem_cons.mp h with heq | hmem
          · obtain ⟨h1, h2⟩ := Prod.mk.injEq .. ▸ heq
            have := findClose_pos rest 0 n rest2 hfc
            omega
          · exact ih rest2 (i + n + 2) f t hmem
      · rw [scanSpansF, if_neg hc] at h
        exact ih rest (i + 1) f t h

/-- C5: the non-greedy pairing scan yields exactly the two spans `(0,3)`
and `(4,7)` on `_a_ _b_` (not one span covering both); a line holding at
most one underscore yields no span; and every produced span has at least
one content character between its two marks (`markTo ≥ markFrom + 3`), so
`__` is never paired as an empty-content span. -/
theorem claim_C5_scanner :
    underscoreSpans "_a_ _b_".data = [(0, 3), (4, 7)] ∧
    (∀ l : List Char, l.count '_' ≤ 1 → underscoreSpans l = []) ∧
    (∀ (l : List Char) (f t : Nat), (f, t) ∈ underscoreSpans l → f + 3 ≤ t) := by
  refine ⟨by decide, ?_, ?_⟩
  · intro l h
    exact scanSpansF_nil_of_count l.length l 0 h
  · intro l f t h
    exact scanSpansF_mem_ge l.length l 0 f t h

/-- Witness for C5: a line with a single lone underscore scans to no span,
and the span produced on `_a_` has a content character. -/
theorem claim_C5_witness :
    underscoreSpans "ab_cd".data = [] ∧ (0 : Nat) + 3 ≤ 3 :=
  ⟨claim_C5_scanner.2.1 "ab_cd".data (by decide),
   claim_C5_scanner.2.2 "_a_".data 0 3 (by decide)⟩

lemma countStep_foldl (b : List (List Char)) (f t : Pos) :
    ∀ (L : List Nat) (a c : Nat),
      L.foldl (countStep b f t) (a, c) =
        (a + L.countP (sliceUnderlined b f t), c + L.countP (sliceNonempty b f t)) := by
  intro L
  induction L with
  | nil => intro a c; simp
  | cons i L ih =>
    intro a c
    by_cases hs : (getLineSlice (getLineD b i) i f t).2 ≤ (getLineSlice (getLineD b i) i f t).1
    · have h1 : countStep b f t (a, c) i = (a, c) := by
        simp only [countStep]
        rw [if_pos hs]
      have h2 : sliceNonempty b f t i = false := by
        unfold sliceNonempty
        exact decide_eq_false (by omega)
      have h3 : sliceUnderlined b f t i = false := by
        unfold sliceUnderlined
        rw [h2]
        rfl
      rw [List.foldl_cons, h1, ih a c, List.countP_cons, List.countP_cons, h2, h3]
      simp
    · have h2 : sliceNonempty b f t i = true := by
        unfold sliceNonempty
        exact decide_eq_true (by omega)
      by_cases hu : (getUnderlineState (getLineD b i) (getLineSlice (getLineD b i) i f t).1
          (getLineSlice (getLineD b i) i f t).2).isUnderlined = true
      · have h1 : countStep b f t (a, c) i = (a + 1, c + 1) := by
          simp only [countStep]
          rw [if_neg hs, if_pos hu]
        have h3 : sliceUnderlined b f t i = true := by
          unfold sliceUnderlined
          rw [h2, hu]
          rfl
        rw [List.foldl_cons, h1, ih (a + 1) (c + 1), List.countP_cons, List.countP_cons,
          h2, h3]
        simp [Prod.ext_iff]
        omega
      · have hu' : (getUnderlineState (getLineD b i) (getLineSlice (getLineD b i) i f t).1
            (getLineSlice (getLineD b i) i f t).2).isUnderlined = false := by
          revert hu
          cases (getUnderlineState (getLineD b i) (getLineSlice (getLineD b i) i f t).1
            (getLineSlice (getLineD b i) i f t).2).isUnderlined <;> simp
        have h1 : countStep b f t (a, c) i = (a, c + 1) := by
          simp only [countStep]
          rw [if_neg hs, if_neg hu]
        have h3 : sliceUnderlined b f t i = false := by
          unfold sliceUnderlined
          rw [h2, hu']
          rfl
        rw [List.foldl_cons, h1, ih a (c + 1), List.countP_cons, List.countP_cons, h2, h3]
        simp [Prod.ext_iff]
        omega

lemma vote_iff_rat (u t : Nat) :
    shouldRemoveVote u t = true ↔ ((t : ℚ) / 2 < (u : ℚ)) := by
  rw [shouldRemoveVote, decide_eq_true_eq,
    div_lt_iff₀ (by norm_num : (0 : ℚ) < 2)]
  constructor
  · intro h
    have h' : (t : ℚ) < 2 * (u : ℚ) := by exact_mod_cast h
    linarith
  · intro h
    have h' : (t : ℚ) < 2 * (u : ℚ) := by linarith
    exact_mod_cast h'

lemma toggleLineSlice_nil (i : Nat) (f t : Pos) (r : Bool) :
    toggleLineSlice [] i f t r = [] := by
  unfold toggleLineSlice getLineSlice
  split_ifs <;> simp_all

lemma getLineD_multiStep_ne (f t : Pos) (r : Bool) (bb : List (List Char)) (j i : Nat)
    (h : j ≠ i) : getLineD (multiStep f t r bb j) i = getLineD bb i := by
  unfold multiStep getLineD
  simp only [List.getD_eq_get?]
  rw [List.get?_set_ne _ _ h]

lemma getLineD_multiStep_self (f t : Pos) (r : Bool) (bb : List (List Char)) (i : Nat) :
    getLineD (multiStep f t r bb i) i = toggleLineSlice (getLineD bb i) i f t r := by
  rcases Nat.lt_or_ge i bb.length with hi | hi
  · unfold multiStep getLineD
    simp only [List.getD_eq_get?]
    rw [List.get?_set_eq_of_lt _ hi]
    rfl
  · have hnil : getLineD bb i = [] := by
      unfold getLineD
      rw [List.getD_eq_get?, List.get?_eq_none.mpr hi]
      rfl
    unfold multiStep
    rw [List.set_eq_of_length_le hi, hnil, toggleLineSlice_nil]

lemma getLineD_foldl_multiStep (f t : Pos) (r : Bool) :
    ∀ (L : List Nat), L.Nodup → ∀ (bb : List (List Char)) (i : Nat),
      getLineD (L.foldl (multiStep f t r) bb) i =
        if i ∈ L then toggleLineSlice (getLineD bb i) i f t r else getLineD bb i := by
  intro L
  induction L with
  | nil => intro _ bb i; simp
  | cons j L ih =>
    intro hnd bb i
    have hj : j ∉ L := (List.nodup_cons.mp hnd).1
    have hL : L.Nodup := (List.nodup_cons.mp hnd).2
    rw [List.foldl_cons, ih hL (multiStep f t r bb j) i]
    by_cases hij : i = j
    · subst hij
      rw [if_neg hj, if_pos (List.mem_cons_self i L)]
      exact getLineD_multiStep_self f t r bb i
    · rw [getLineD_multiStep_ne f t r bb j i (fun hh => hij hh.symm)]
      by_cases him : i ∈ L
      · rw [if_pos him, if_pos (List.mem_cons.mpr (Or.inr him))]
      · rw [if_neg him, if_neg (fun hc => (List.mem_cons.mp hc).elim (fun he => hij he)
          (fun hm => him hm))]

lemma applyMulti_getLineD (bb : List (List Char)) (f t : Pos) (i : Nat) :
    getLineD (applyMultiLineToggle bb f t) i =
      if f.line ≤ i ∧ i ≤ t.line then
        toggleLineSlice (getLineD bb i) i f t
          (shouldRemoveVote (countUnderlinedLines bb f t).1 (countUnderlinedLines bb f t).2)
      else getLineD bb i := by
  have hnd : ((lineRange f t).reverse).Nodup :=
    List.nodup_reverse.mpr (List.nodup_range' f.line (t.line + 1 - f.line) 1 Nat.one_pos)
  have hmem : (i ∈ (lineRange f t).reverse) ↔ (f.line ≤ i ∧ i ≤ t.line) := by
    simp only [lineRange, List.mem_reverse, List.mem_range'_1]
    omega
  simp only [applyMultiLineToggle]
  rw [getLineD_foldl_multiStep f t _ ((lineRange f t).reverse) hnd bb i]
  by_cases hcond : f.line ≤ i ∧ i ≤ t.line
  · rw [if_pos (hmem.mpr hcond), if_pos hcond]
  · rw [if_neg (fun hc => hcond (hmem.mp hc)), if_neg hcond]

/-- C3: the totals of `countUnderlinedLines` count exactly the non-empty
slices (and, for the underlined count, the non-empty underlined slices) of
the selected line range; the vote removes marks exactly when the
underlined count strictly exceeds half of the non-empty total; a line
whose selected slice is empty is never edited by the multi-line toggle;
and a 1-of-2 tie votes `shouldRemove = false`, so marks are inserted. -/
theorem claim_C3_majority_vote :
    (∀ (b : List (List Char)) (selFrom selTo : Pos),
      countUnderlinedLines b selFrom selTo =
        ((lineRange selFrom selTo).countP (sliceUnderlined b selFrom selTo),
         (lineRange selFrom selTo).countP (sliceNonempty b selFrom selTo))) ∧
    (∀ (b : List (List Char)) (selFrom selTo : Pos),
      shouldRemoveVote (countUnderlinedLines b selFrom selTo).1
          (countUnderlinedLines b selFrom selTo).2 = true ↔
        ((countUnderlinedLines b selFrom selTo).2 : ℚ) / 2 <
          ((countUnderlinedLines b selFrom selTo).1 : ℚ)) ∧
    (∀ (b : List (List Char)) (selFrom selTo : Pos) (i : Nat),
      (getLineSlice (getLineD b i) i selFrom selTo).2 ≤
        (getLineSlice (getLineD b i) i selFrom selTo).1 →
      getLineD (applyMultiLineToggle b selFrom selTo) i = getLineD b i) ∧
    (shouldRemoveVote 1 2 = false ∧
      applyMultiLineToggle ["_a_".data, "bc".data] ⟨0, 0⟩ ⟨1, 2⟩ =
        ["_a_".data, "_bc_".data]) := by
  refine ⟨?_, ?_, ?_, by decide, by decide⟩
  · intro b f t
    unfold countUnderlinedLines
    rw [countStep_foldl b f t (lineRange f t) 0 0]
    simp
  · intro b f t
    exact vote_iff_rat _ _
  · intro b f t i hempty
    rw [applyMulti_getLineD b f t i]
    by_cases hcond : f.line ≤ i ∧ i ≤ t.line
    · rw [if_pos hcond]
      unfold toggleLineSlice
      rw [if_pos hempty]
    · rw [if_neg hcond]

/-- Witness for C3: the empty first slice of a selection starting at the
end of its first line is untouched. -/
theorem claim_C3_witness :
    getLineD (applyMultiLineToggle ["ab".data, "cd".data] ⟨0, 2⟩ ⟨1, 2⟩) 0 =
      getLineD ["ab".data, "cd".data] 0 :=
  claim_C3_majority_vote.2.2.1 ["ab".data, "cd".data] ⟨0, 2⟩ ⟨1, 2⟩ 0 (by decide)

lemma isUS_true_facts (l : List Char) (i : Int) (h : isUS l i = true) :
    0 ≤ i ∧ i < (l.length : Int) := by
  unfold isUS at h
  rw [decide_eq_true_eq] at h
  unfold chAt at h
  by_cases hi : 0 ≤ i
  · rw [if_pos hi] at h
    obtain ⟨hlt, -⟩ := List.get?_eq_some.mp h
    omega
  · rw [if_neg hi] at h
    exact absurd h (by simp)

/-- C6: with no selection and an empty detected word range, the toggle
command deletes the two-character range `[ch−1, ch+1)` when the characters
at `ch−1` and `ch` are both underscores, and otherwise inserts `__` at the
cursor and places the cursor between the two marks; in particular a cursor
on the space of `"hello world"` at column 5 yields `"hello__ world"` with
the cursor at column 6, and a cursor at column 1 of `"__"` leaves the
empty line. -/
theorem claim_C6_empty_selection :
    (∀ (lines : List (List Char)) (l ch : Nat),
      (detectWordRange (getLineD lines l) ch).1 = (detectWordRange (getLineD lines l) ch).2 →
      isUS (getLineD lines l) ((ch : Int) - 1) = true →
      isUS (getLineD lines l) (ch : Int) = true →
      toggleUnderlineCommand lines ⟨l, ch⟩ ⟨l, ch⟩ =
        ⟨lines.set l ((getLineD lines l).take (ch - 1) ++ (getLineD lines l).drop (ch + 1)),
         none⟩) ∧
    (∀ (lines : List (List Char)) (l ch : Nat),
      (detectWordRange (getLineD lines l) ch).1 = (detectWordRange (getLineD lines l) ch).2 →
      ¬(isUS (getLineD lines l) ((ch : Int) - 1) = true ∧
        isUS (getLineD lines l) (ch : Int) = true) →
      toggleUnderlineCommand lines ⟨l, ch⟩ ⟨l, ch⟩ =
        ⟨lines.set l ((getLineD lines l).take ch ++ '_' :: '_' :: (getLineD lines l).drop ch),
         some (⟨l, ch + 1⟩, ⟨l, ch + 1⟩)⟩) ∧
    toggleUnderlineCommand ["hello world".data] ⟨0, 5⟩ ⟨0, 5⟩ =
      ⟨["hello__ world".data], some (⟨0, 6⟩, ⟨0, 6⟩)⟩ ∧
    toggleUnderlineCommand ["__".data] ⟨0, 1⟩ ⟨0, 1⟩ = ⟨[[]], none⟩ := by
  refine ⟨?_, ?_, by decide, by decide⟩
  · intro lines l ch hw h1 h2
    have hf1 := isUS_true_facts _ _ h1
    have hf2 := isUS_true_facts _ _ h2
    simp only [toggleUnderlineCommand]
    rw [if_pos (by simp), if_pos hw, if_pos ⟨by omega, by omega, h1, h2⟩]
    simp [replaceRange]
  · intro lines l ch hw hno
    simp only [toggleUnderlineCommand]
    rw [if_pos (by simp), if_pos hw,
      if_neg (fun hc => hno ⟨hc.2.2.1, hc.2.2.2⟩)]
    simp [replaceRange]

/-- Witness for C6 on both scenario inputs. -/
theorem claim_C6_witness :
    toggleUnderlineCommand ["__".data] ⟨0, 1⟩ ⟨0, 1⟩ =
      ⟨["__".data].set 0 (("__".data).take 0 ++ ("__".data).drop 2), none⟩ ∧
    toggleUnderlineCommand ["hello world".data] ⟨0, 5⟩ ⟨0, 5⟩ =
      ⟨["hello world".data].set 0
        (("hello world".data).take 5 ++ '_' :: '_' :: ("hello world".data).drop 5),
       some (⟨0, 6⟩, ⟨0, 6⟩)⟩ :=
  ⟨claim_C6_empty_selection.1 ["__".data] 0 1 (by decide) (by decide) (by decide),
   claim_C6_empty_selection.2.1 ["hello world".data] 0 5 (by decide) (by decide)⟩

/-- Counterexample to C2 as stated: on the line `__x__` itself, the
sub-range `[1,4)` — aligned to and including the two inner marks — is
classified as underlined by the marks-included case, not rejected. -/
theorem claim_C2_counterexample :
    getUnderlineState "__x__".data 1 4 = ⟨true, 1, 4, 2, 3⟩ ∧
    (getUnderlineState "__x__".data 1 4).isUnderlined ≠ false := by
  decide
